import Mathlib

/-!
Verification development for two cores of the RethinkDB storage engine
sources: the metablock ring
(`src/serializer/log/metablock/metablock_manager.hpp`) and the
thread-per-core runtime (`src/arch/runtime/thread_pool.cc`).

Modelling conventions: machine integers are `Nat` or `Int`, reduced mod `2^w`
explicitly where overflow matters; byte buffers are `List Nat` of byte
values; stateful code is explicit state passing; the effects of signal
handlers and the startup barrier are given as small-step transition
relations.  Definitions are translated from the C++ sources; where the
implementation file `metablock_manager.tcc` is not part of the sources
(only the header is), the corresponding operation is modelled from the
specification and marked `Modelled from the spec:` in its doc comment.
-/

/-! Section 1: the CRC-32 engine of `crc_metablock_t::crc`.

`crc_metablock_t::crc` (metablock_manager.hpp lines 40-46) instantiates
`boost::crc_optimal<32, 0x04C11DB7, 0xFFFFFFFF, 0xFFFFFFFF, true, true>`
and feeds it exactly the bytes of the `metablock` payload field.  With
both reflection flags set, that engine is the reflected (LSB-first)
CRC-32: the register shifts right and the polynomial 0x04C11DB7 appears
bit-reversed as 0xEDB88320. -/

/-- One bit step of the reflected (LSB-first) CRC-32 computation performed
by the `boost::crc_optimal` engine instantiated in `crc_metablock_t::crc`:
if the low bit of the register is set, shift right and XOR the reversed
polynomial 0xEDB88320, else just shift right. -/
def crcBit (s : Nat) : Nat :=
  if s % 2 = 1 then (s / 2) ^^^ 0xEDB88320 else s / 2

/-- Absorb one input byte: XOR it into the low eight bits of the register,
then run eight bit steps (reflected input is consumed LSB first). -/
def crcByte (s b : Nat) : Nat := crcBit^[8] (s ^^^ b % 256)

/-- Register state after processing `data` starting from state `s`
(`crc_computer.process_bytes`). -/
def crcUpdate (s : Nat) (data : List Nat) : Nat := data.foldl crcByte s

/-- The checksum `crc_computer.checksum()` returns in `crc_metablock_t::crc`:
initial register 0xFFFFFFFF, final XOR with 0xFFFFFFFF. -/
def crc32 (data : List Nat) : Nat := crcUpdate 0xFFFFFFFF data ^^^ 0xFFFFFFFF

/-- Reversal of the low `n` bits of `s`: bit `i` of the result is bit
`n - 1 - i` of `s`. -/
def revBits : Nat → Nat → Nat
  | 0, _ => 0
  | n + 1, s => ((s % 2) <<< n) ||| revBits n (s / 2)

/-- Bit reversal of one byte. -/
def rev8 (b : Nat) : Nat := revBits 8 b

/-- Bit reversal of a 32-bit register. -/
def rev32 (s : Nat) : Nat := revBits 32 s

/-- Modelled from the spec: one MSB-first step of the CRC-32 division by the
generator polynomial 0x04C11DB7 (the spec's "standard CRC-32
(`0x04C11DB7`)"); the register shifts left, reduced mod 2^32. -/
def crcBitMsb (s : Nat) : Nat :=
  if s.testBit 31 then ((s * 2) % 2 ^ 32) ^^^ 0x04C11DB7 else (s * 2) % 2 ^ 32

/-- Modelled from the spec: absorb one input byte in "reflected input" mode,
i.e. bit-reverse the byte and XOR it into the top eight bits of the
register, then run eight MSB-first steps. -/
def crcByteMsb (s b : Nat) : Nat := crcBitMsb^[8] (s ^^^ (rev8 (b % 256) <<< 24))

/-- Modelled from the spec (§6): "standard CRC-32 (`0x04C11DB7`), reflected
input, reflected output, initial value `0xFFFFFFFF`, final XOR
`0xFFFFFFFF`": MSB-first division with reflected input bytes, the final
register bit-reversed ("reflected output") and XORed with 0xFFFFFFFF. -/
def crc32_spec (data : List Nat) : Nat :=
  rev32 (data.foldl crcByteMsb 0xFFFFFFFF) ^^^ 0xFFFFFFFF

theorem revBits_testBit (n : Nat) :
    ∀ s i, (revBits n s).testBit i = (decide (i < n) && s.testBit (n - 1 - i)) := by
  induction n with
  | zero => intro s i; simp [revBits]
  | succ n ih =>
    intro s i
    show ((((s % 2) <<< n) ||| revBits n (s / 2)).testBit i) = _
    rw [Nat.testBit_lor, Nat.testBit_shiftLeft, ih]
    rcases Nat.lt_trichotomy i n with h | h | h
    · have h4 : n - 1 - i + 1 = n - i := by omega
      have h5 : n + 1 - 1 - i = n - i := by omega
      simp only [Nat.testBit_div_two, h4, h5]
      simp [show ¬ (n ≤ i) by omega, show i < n by omega, show i < n + 1 by omega]
    · subst h
      have : (s % 2) = s % 2 ^ 1 := by norm_num
      rw [this]
      simp only [Nat.sub_self, Nat.testBit_mod_two_pow]
      simp [Nat.succ_sub_one]
    · by_cases h32 : i < n + 1
      · omega
      · have : (s % 2) = s % 2 ^ 1 := by norm_num
        rw [this]
        simp only [Nat.testBit_mod_two_pow]
        simp [show ¬ (i < n) by omega, show ¬ (i - n < 1) by omega, h32]

theorem rev32_testBit (s i : Nat) :
    (rev32 s).testBit i = (decide (i < 32) && s.testBit (31 - i)) := by
  have := revBits_testBit 32 s i
  simpa [rev32] using this

theorem rev8_testBit (b i : Nat) :
    (rev8 b).testBit i = (decide (i < 8) && b.testBit (7 - i)) := by
  have := revBits_testBit 8 b i
  simpa [rev8] using this

theorem revBits_lt (n : Nat) : ∀ s, revBits n s < 2 ^ n := by
  induction n with
  | zero => intro s; simp [revBits]
  | succ n ih =>
    intro s
    show ((s % 2) <<< n) ||| revBits n (s / 2) < 2 ^ (n + 1)
    apply Nat.or_lt_two_pow
    · rw [Nat.shiftLeft_eq]
      have h1 : s % 2 ≤ 1 := by omega
      have h2 : 0 < 2 ^ n := Nat.two_pow_pos n
      calc s % 2 * 2 ^ n ≤ 1 * 2 ^ n := Nat.mul_le_mul_right _ h1
        _ < 2 ^ (n + 1) := by rw [one_mul, pow_succ]; omega
    · have h2 : 0 < 2 ^ n := Nat.two_pow_pos n
      calc revBits n (s / 2) < 2 ^ n := ih _
        _ < 2 ^ (n + 1) := by rw [pow_succ]; omega

theorem rev32_lt (s : Nat) : rev32 s < 2 ^ 32 := revBits_lt 32 s

theorem rev32_xor (a b : Nat) : rev32 (a ^^^ b) = rev32 a ^^^ rev32 b := by
  apply Nat.eq_of_testBit_eq
  intro i
  simp only [Nat.testBit_xor, rev32_testBit]
  by_cases h : i < 32 <;> simp [h]

theorem rev32_rev32 (s : Nat) (h : s < 2 ^ 32) : rev32 (rev32 s) = s := by
  apply Nat.eq_of_testBit_eq
  intro i
  by_cases hi : i < 32
  · rw [rev32_testBit, rev32_testBit]
    have h31 : 31 - (31 - i) = i := by omega
    simp [hi, show 31 - i < 32 by omega, h31]
  · have h1 : rev32 (rev32 s) < 2 ^ i := by
      calc rev32 (rev32 s) < 2 ^ 32 := rev32_lt _
        _ ≤ 2 ^ i := Nat.pow_le_pow_right (by norm_num) (by omega)
    have h2 : s < 2 ^ i := by
      calc s < 2 ^ 32 := h
        _ ≤ 2 ^ i := Nat.pow_le_pow_right (by norm_num) (by omega)
    rw [Nat.testBit_lt_two_pow h1, Nat.testBit_lt_two_pow h2]

theorem rev32_div_two (s : Nat) (h : s < 2 ^ 32) :
    rev32 (s / 2) = (rev32 s * 2) % 2 ^ 32 := by
  apply Nat.eq_of_testBit_eq
  intro i
  have hmul : rev32 s * 2 = rev32 s <<< 1 := by rw [Nat.shiftLeft_eq, pow_one]
  rw [rev32_testBit, hmul, Nat.testBit_mod_two_pow, Nat.testBit_shiftLeft,
    Nat.testBit_div_two]
  by_cases hi : i < 32
  · by_cases h0 : 1 ≤ i
    · rw [rev32_testBit]
      have he : 31 - (i - 1) = 31 - i + 1 := by omega
      simp [hi, h0, show i - 1 < 32 by omega, he]
    · have hz : i = 0 := by omega
      subst hz
      have h32 : s.testBit 32 = false :=
        Nat.testBit_lt_two_pow (by simpa using h)
      simp [h32]
  · simp [hi]

theorem rev32_byte (b : Nat) : rev32 (b % 256) = rev8 (b % 256) <<< 24 := by
  apply Nat.eq_of_testBit_eq
  intro i
  have h256 : (256 : Nat) = 2 ^ 8 := by norm_num
  rw [rev32_testBit, Nat.testBit_shiftLeft, rev8_testBit]
  by_cases hi : i < 24
  · have hb : (b % 256).testBit (31 - i) = false := by
      apply Nat.testBit_lt_two_pow
      calc b % 256 < 256 := Nat.mod_lt _ (by norm_num)
        _ = 2 ^ 8 := h256
        _ ≤ 2 ^ (31 - i) := Nat.pow_le_pow_right (by norm_num) (by omega)
    simp [hb, show ¬ (24 ≤ i) by omega]
  · by_cases hi32 : i < 32
    · have he : 7 - (i - 24) = 31 - i := by omega
      simp [hi32, show 24 ≤ i by omega, show i - 24 < 8 by omega, he]
    · simp [show ¬ (i < 32) by omega, show ¬ (i - 24 < 8) by omega]

theorem rev32_poly : rev32 0xEDB88320 = 0x04C11DB7 := by decide

theorem rev32_ones : rev32 0xFFFFFFFF = 0xFFFFFFFF := by decide

theorem crcBit_lt (s : Nat) (h : s < 2 ^ 32) : crcBit s < 2 ^ 32 := by
  unfold crcBit
  split
  · exact Nat.xor_lt_two_pow (by omega) (by norm_num)
  · omega

theorem crcBit_commute (s : Nat) (h : s < 2 ^ 32) :
    rev32 (crcBit s) = crcBitMsb (rev32 s) := by
  unfold crcBit crcBitMsb
  have hcond : (rev32 s).testBit 31 = s.testBit 0 := by
    rw [rev32_testBit]; simp
  rw [hcond, Nat.testBit_zero]
  by_cases h0 : s % 2 = 1
  · rw [if_pos h0, if_pos (by simp [h0])]
    rw [rev32_xor, rev32_div_two s h, rev32_poly]
  · rw [if_neg h0, if_neg (by simp [h0])]
    exact rev32_div_two s h

theorem crcBit_iter_lt (k s : Nat) (h : s < 2 ^ 32) : crcBit^[k] s < 2 ^ 32 := by
  induction k generalizing s with
  | zero => simpa using h
  | succ k ih =>
    rw [Function.iterate_succ_apply]
    exact ih _ (crcBit_lt s h)

theorem crcBit_iter_commute (k s : Nat) (h : s < 2 ^ 32) :
    rev32 (crcBit^[k] s) = crcBitMsb^[k] (rev32 s) := by
  induction k generalizing s with
  | zero => rfl
  | succ k ih =>
    rw [Function.iterate_succ_apply, Function.iterate_succ_apply,
      ih _ (crcBit_lt s h), crcBit_commute s h]

theorem crcByte_lt (s b : Nat) (h : s < 2 ^ 32) : crcByte s b < 2 ^ 32 := by
  unfold crcByte
  apply crcBit_iter_lt
  exact Nat.xor_lt_two_pow h (by have := Nat.mod_lt b (show 0 < 256 by norm_num); omega)

theorem crcByte_commute (s b : Nat) (h : s < 2 ^ 32) :
    rev32 (crcByte s b) = crcByteMsb (rev32 s) b := by
  unfold crcByte crcByteMsb
  rw [crcBit_iter_commute _ _
    (Nat.xor_lt_two_pow h (by have := Nat.mod_lt b (show 0 < 256 by norm_num); omega))]
  rw [rev32_xor, rev32_byte]

theorem crcUpdate_lt (data : List Nat) (s : Nat) (h : s < 2 ^ 32) :
    crcUpdate s data < 2 ^ 32 := by
  induction data generalizing s with
  | nil => simpa [crcUpdate] using h
  | cons b rest ih =>
    show crcUpdate (crcByte s b) rest < 2 ^ 32
    exact ih _ (crcByte_lt s b h)

theorem crcUpdate_commute (data : List Nat) (s : Nat) (h : s < 2 ^ 32) :
    rev32 (crcUpdate s data) = data.foldl crcByteMsb (rev32 s) := by
  induction data generalizing s with
  | nil => rfl
  | cons b rest ih =>
    show rev32 (crcUpdate (crcByte s b) rest) = rest.foldl crcByteMsb (crcByteMsb (rev32 s) b)
    rw [ih _ (crcByte_lt s b h), crcByte_commute s b h]

/-- The reflected (LSB-first) computation run by the `boost::crc_optimal`
engine of `crc_metablock_t::crc` computes exactly the spec's standard
CRC-32: MSB-first division by 0x04C11DB7 with reflected input bytes,
reflected output, initial value 0xFFFFFFFF and final XOR 0xFFFFFFFF. -/
theorem crc32_eq_spec (data : List Nat) : crc32 data = crc32_spec data := by
  unfold crc32 crc32_spec
  have h1 : rev32 (crcUpdate 0xFFFFFFFF data) = data.foldl crcByteMsb 0xFFFFFFFF := by
    have h2 := crcUpdate_commute data 0xFFFFFFFF (by norm_num)
    rwa [rev32_ones] at h2
  rw [← h1, rev32_rev32 _ (crcUpdate_lt data 0xFFFFFFFF (by norm_num))]

set_option maxRecDepth 20000 in
/-- Sanity: the standard CRC-32 check value over the ASCII bytes of
"123456789". -/
theorem crc32_check_value :
    crc32 [0x31, 0x32, 0x33, 0x34, 0x35, 0x36, 0x37, 0x38, 0x39] = 0xCBF43926 := by
  decide

/-! Section 2: the on-disk metablock record `crc_metablock_t`
(metablock_manager.hpp lines 26-54). -/

/-- Embedded from `crc_metablock_t` (metablock_manager.hpp lines 26-54),
with the debug-only marker fields (compiled only under
`SERIALIZER_MARKERS`) omitted: the stored CRC `_crc`, the `version`
counter (declared `int` in the source), and the opaque `metablock`
payload, modelled as its list of bytes. -/
structure crc_metablock_t where
  _crc : Nat
  version : Int
  metablock : List Nat
deriving Repr, DecidableEq

/-- Embedded from `crc_metablock_t::crc` (lines 40-46): the boost CRC-32
engine processes the bytes of the `metablock` field only; the line that
would also feed `version` is commented out in the source. -/
def crc_metablock_t.crc (r : crc_metablock_t) : Nat := crc32 r.metablock

/-- Embedded from `crc_metablock_t::set_crc` (lines 47-49). -/
def crc_metablock_t.set_crc (r : crc_metablock_t) : crc_metablock_t :=
  { r with _crc := r.crc }

/-- Embedded from `crc_metablock_t::check_crc` (lines 51-53). -/
def crc_metablock_t.check_crc (r : crc_metablock_t) : Bool :=
  r._crc == r.crc

/-- Size in bytes of the C `int` type on the Linux x86 / x86-64 targets of
this code (both ILP32 and LP64 have a 4-byte `int`). -/
def sizeof_int : Nat := 4

/-- Byte width of the on-disk `version` field of `crc_metablock_t`, which
the source declares as `int version;` (metablock_manager.hpp line 37). -/
def version_field_width : Nat := sizeof_int

/-- C2: for every metablock record, the CRC stored and checked by the
manager is the standard CRC-32 (polynomial 0x04C11DB7, reflected input,
reflected output, initial value 0xFFFFFFFF, final XOR 0xFFFFFFFF)
computed over the payload (`metablock`) bytes only; in particular the
`version` field does not contribute to the CRC, and the engine meets the
standard CRC-32 check value. -/
theorem crc_is_standard_crc32_over_payload_only :
    (∀ r : crc_metablock_t, r.crc = crc32_spec r.metablock) ∧
    (∀ (r : crc_metablock_t) (v : Int),
      ({ r with version := v } : crc_metablock_t).crc = r.crc) ∧
    crc32 [0x31, 0x32, 0x33, 0x34, 0x35, 0x36, 0x37, 0x38, 0x39] = 0xCBF43926 :=
  ⟨fun r => crc32_eq_spec r.metablock, fun _ _ => rfl, crc32_check_value⟩

/-- C9: for every `crc_metablock_t` record, calling `set_crc()` and then
`check_crc()` returns true, and the result of `check_crc()` is unaffected
by any change to the `version` field alone, since `crc()` reads only the
payload bytes. -/
theorem set_crc_check_crc_roundtrip :
    (∀ r : crc_metablock_t, r.set_crc.check_crc = true) ∧
    (∀ (r : crc_metablock_t) (v : Int),
      ({ r with version := v } : crc_metablock_t).check_crc = r.check_crc) := by
  constructor
  · intro r
    simp [crc_metablock_t.set_crc, crc_metablock_t.check_crc, crc_metablock_t.crc]
  · intro r v
    rfl

/-- C3 counterexample: the on-disk `version` field of `crc_metablock_t` is
declared `int version;`, which is 4 bytes on the targets of this code,
not the 8 bytes the claim states. -/
theorem version_field_not_64bit : version_field_width ≠ 8 := by decide

/-! Section 3: the metablock ring protocol.

The bodies of `metablock_manager_t::start`, `write_metablock` and the
recovery scan live in `metablock_manager.tcc`, which is not among the
sources (the header only declares them), so the ring protocol below is
modelled from the spec (§4.1): writes go to successive ring slots with a
version counter bumped by one per write, and recovery scans every slot
keeping the valid record with the strictly largest version. -/

/-- Modelled from the spec: the manager state that `write_metablock` and
the recovery scan touch — the ring of slots (`disk`, one `crc_metablock_t`
per slot, in ring order), the head slot index written next, and the
in-memory version counter. -/
structure mb_state where
  disk : List crc_metablock_t
  head : Nat
  version : Int

/-- Record committed for payload `mb` at version `v`: the payload is
copied in, the version set, and the CRC stored with `set_crc`. -/
def mk_crc_metablock (v : Int) (mb : List Nat) : crc_metablock_t :=
  crc_metablock_t.set_crc { _crc := 0, version := v, metablock := mb }

/-- Modelled from the spec (§4.1 `write_metablock`): bump the in-memory
version counter, write the payload with its CRC into the head slot, and
advance the head by one slot around the ring. -/
def write_metablock (s : mb_state) (mb : List Nat) : mb_state :=
  { disk := s.disk.set s.head (mk_crc_metablock (s.version + 1) mb),
    head := (s.head + 1) % s.disk.length,
    version := s.version + 1 }

/-- A sequence of `write_metablock` calls with payloads `ps`, in order. -/
def write_all (s : mb_state) (ps : List (List Nat)) : mb_state :=
  ps.foldl write_metablock s

/-- Modelled from the spec (§4.1 recovery scan): fold step over one slot.
The candidate is replaced iff the slot's CRC matches and its version is
strictly greater than the best seen so far. -/
def scan_step (acc : Option (Int × List Nat)) (r : crc_metablock_t) :
    Option (Int × List Nat) :=
  if r.check_crc && (match acc with
      | none => true
      | some (v, _) => decide (v < r.version)) then
    some (r.version, r.metablock)
  else acc

/-- Modelled from the spec (§4.1 `start`): the recovery scan visits every
slot of the ring and keeps the valid record with the largest version;
`none` plays the role of `*mb_found = false`. -/
def recover (disk : List crc_metablock_t) : Option (Int × List Nat) :=
  disk.foldl scan_step none

theorem mk_crc_metablock_check (v : Int) (mb : List Nat) :
    (mk_crc_metablock v mb).check_crc = true := by
  simp [mk_crc_metablock, crc_metablock_t.set_crc, crc_metablock_t.check_crc,
    crc_metablock_t.crc]

theorem mk_crc_metablock_version (v : Int) (mb : List Nat) :
    (mk_crc_metablock v mb).version = v := rfl

theorem mk_crc_metablock_payload (v : Int) (mb : List Nat) :
    (mk_crc_metablock v mb).metablock = mb := rfl

theorem scan_absorb (V : Int) (P : List Nat) :
    ∀ d : List crc_metablock_t,
      (∀ r ∈ d, r.check_crc = true → r.version ≤ V) →
      d.foldl scan_step (some (V, P)) = some (V, P) := by
  intro d
  induction d with
  | nil => intro _; rfl
  | cons r rest ih =>
    intro h
    show rest.foldl scan_step (scan_step (some (V, P)) r) = some (V, P)
    have hstep : scan_step (some (V, P)) r = some (V, P) := by
      unfold scan_step
      by_cases hc : r.check_crc = true
      · have hv := h r (List.mem_cons_self r rest) hc
        simp [hc, show ¬ (V < r.version) by omega]
      · simp only [Bool.not_eq_true] at hc
        simp [hc]
    rw [hstep]
    exact ih fun r' hr' => h r' (List.mem_cons_of_mem _ hr')

theorem scan_finds_max (V : Int) (P : List Nat) :
    ∀ (d : List crc_metablock_t) (j : Nat) (acc : Option (Int × List Nat)),
      d[j]? = some (mk_crc_metablock V P) →
      (∀ (i : Nat) (r : crc_metablock_t),
        d[i]? = some r → r.check_crc = true → r.version ≤ V) →
      (∀ (i : Nat) (r : crc_metablock_t),
        i < j → d[i]? = some r → r.check_crc = true → r.version < V) →
      (acc = none ∨ ∃ v p, acc = some (v, p) ∧ v < V) →
      d.foldl scan_step acc = some (V, P) := by
  intro d
  induction d with
  | nil => intro j acc hj; simp at hj
  | cons r rest ih =>
    intro j acc hj hall hlow hacc
    cases j with
    | zero =>
      have hj0 : r = mk_crc_metablock V P := by
        have h0 : some r = some (mk_crc_metablock V P) := by simpa using hj
        injection h0
      subst hj0
      show rest.foldl scan_step (scan_step acc (mk_crc_metablock V P)) = _
      have hstep : scan_step acc (mk_crc_metablock V P) = some (V, P) := by
        rcases hacc with h | ⟨v, p, he, hv⟩
        · subst h
          simp [scan_step, mk_crc_metablock_check, mk_crc_metablock_version,
            mk_crc_metablock_payload]
        · subst he
          simp [scan_step, mk_crc_metablock_check, mk_crc_metablock_version,
            mk_crc_metablock_payload, hv]
      rw [hstep]
      apply scan_absorb
      intro r' hr'
      obtain ⟨i, hi⟩ := List.mem_iff_getElem?.mp hr'
      exact hall (i + 1) r' (by simpa using hi) 
    | succ j' =>
      rw [List.getElem?_cons_succ] at hj
      show rest.foldl scan_step (scan_step acc r) = _
      apply ih j' _ hj
        (fun i r' h1 => hall (i + 1) r' (by simpa using h1))
        (fun i r' hlt h1 => hlow (i + 1) r' (by omega) (by simpa using h1))
      by_cases hc : r.check_crc = true
      · have hrlow : r.version < V :=
          hlow 0 r (Nat.succ_pos j') (by simp) hc
        rcases hacc with h | ⟨v, p, he, hv⟩
        · subst h
          exact Or.inr ⟨r.version, r.metablock, by simp [scan_step, hc], hrlow⟩
        · subst he
          by_cases hgt : v < r.version
          · exact Or.inr ⟨r.version, r.metablock, by simp [scan_step, hc, hgt], hrlow⟩
          · exact Or.inr ⟨v, p, by simp [scan_step, hc, hgt], hv⟩
      · have hkeep : scan_step acc r = acc := by
          simp only [Bool.not_eq_true] at hc
          simp [scan_step, hc]
        rw [hkeep]
        exact hacc

/-- Ring slot most recently written: the slot just before the head. -/
def prev_slot (s : mb_state) : Nat :=
  (s.head + s.disk.length - 1) % s.disk.length

/-- After at least one write: the slot before the head holds the record of
the last committed payload `p` at the current version, every valid slot has
version at most the current one, and only that slot attains it. -/
def mb_inv (s : mb_state) (p : List Nat) : Prop :=
  0 < s.disk.length ∧ s.head < s.disk.length ∧
  s.disk[prev_slot s]? = some (mk_crc_metablock s.version p) ∧
  (∀ (i : Nat) (r : crc_metablock_t), s.disk[i]? = some r →
    r.check_crc = true → r.version ≤ s.version ∧
      (r.version = s.version → i = prev_slot s))

theorem prev_of_next (h n : Nat) (hlt : h < n) : ((h + 1) % n + n - 1) % n = h := by
  rcases Nat.lt_or_ge (h + 1) n with hc | hc
  · rw [Nat.mod_eq_of_lt hc]
    have he : h + 1 + n - 1 = h + n := by omega
    rw [he, Nat.add_mod_right, Nat.mod_eq_of_lt hlt]
  · have he : h + 1 = n := by omega
    rw [he, Nat.mod_self]
    have he2 : 0 + n - 1 = h := by omega
    rw [he2, Nat.mod_eq_of_lt hlt]

theorem write_metablock_version (s : mb_state) (p : List Nat) :
    (write_metablock s p).version = s.version + 1 := rfl

theorem write_metablock_length (s : mb_state) (p : List Nat) :
    (write_metablock s p).disk.length = s.disk.length :=
  List.length_set s.disk s.head _

theorem write_step_common (s : mb_state) (q : List Nat)
    (hn : 0 < s.disk.length) (hh : s.head < s.disk.length) :
    0 < (write_metablock s q).disk.length ∧
    (write_metablock s q).head < (write_metablock s q).disk.length ∧
    prev_slot (write_metablock s q) = s.head := by
  have hlen := write_metablock_length s q
  refine ⟨by omega, ?_, ?_⟩
  · rw [hlen]
    exact Nat.mod_lt _ hn
  · show ((s.head + 1) % s.disk.length + (write_metablock s q).disk.length - 1) %
      (write_metablock s q).disk.length = s.head
    rw [hlen]
    exact prev_of_next s.head s.disk.length hh

theorem write_preserves_inv (s : mb_state) (p q : List Nat) (h : mb_inv s p) :
    mb_inv (write_metablock s q) q := by
  obtain ⟨hn, hh, hprev, huniq⟩ := h
  obtain ⟨hn', hh', hprev'⟩ := write_step_common s q hn hh
  refine ⟨hn', hh', ?_, ?_⟩
  · rw [hprev']
    show (s.disk.set s.head (mk_crc_metablock (s.version + 1) q))[s.head]? = _
    rw [List.getElem?_set_self hh]
    rfl
  · intro i r hir hc
    rw [hprev']
    by_cases hi : i = s.head
    · subst hi
      have : (s.disk.set s.head (mk_crc_metablock (s.version + 1) q))[s.head]? =
          some (mk_crc_metablock (s.version + 1) q) := List.getElem?_set_self hh
      rw [show ((write_metablock s q).disk[s.head]? =
          (s.disk.set s.head (mk_crc_metablock (s.version + 1) q))[s.head]?) from rfl,
        this] at hir
      have hr : r = mk_crc_metablock (s.version + 1) q := by
        injection hir with h2
        exact h2.symm
      subst hr
      rw [mk_crc_metablock_version, write_metablock_version]
      exact ⟨le_refl _, fun _ => rfl⟩
    · have : (write_metablock s q).disk[i]? = s.disk[i]? := by
        show (s.disk.set s.head (mk_crc_metablock (s.version + 1) q))[i]? = _
        exact List.getElem?_set_ne (fun he => hi he.symm)
      rw [this] at hir
      have hold := huniq i r hir hc
      rw [write_metablock_version]
      constructor
      · omega
      · intro he
        omega

theorem write_establishes_inv (s : mb_state) (p : List Nat)
    (hn : 0 < s.disk.length) (hh : s.head < s.disk.length)
    (hinvalid : ∀ r ∈ s.disk, r.check_crc = false) :
    mb_inv (write_metablock s p) p := by
  obtain ⟨hn', hh', hprev'⟩ := write_step_common s p hn hh
  refine ⟨hn', hh', ?_, ?_⟩
  · rw [hprev']
    show (s.disk.set s.head (mk_crc_metablock (s.version + 1) p))[s.head]? = _
    rw [List.getElem?_set_self hh]
    rfl
  · intro i r hir hc
    rw [hprev']
    by_cases hi : i = s.head
    · subst hi
      have : (s.disk.set s.head (mk_crc_metablock (s.version + 1) p))[s.head]? =
          some (mk_crc_metablock (s.version + 1) p) := List.getElem?_set_self hh
      rw [show ((write_metablock s p).disk[s.head]? =
          (s.disk.set s.head (mk_crc_metablock (s.version + 1) p))[s.head]?) from rfl,
        this] at hir
      have hr : r = mk_crc_metablock (s.version + 1) p := by
        injection hir with h2
        exact h2.symm
      subst hr
      rw [mk_crc_metablock_version, write_metablock_version]
      exact ⟨le_refl _, fun _ => rfl⟩
    · have : (write_metablock s p).disk[i]? = s.disk[i]? := by
        show (s.disk.set s.head (mk_crc_metablock (s.version + 1) p))[i]? = _
        exact List.getElem?_set_ne (fun he => hi he.symm)
      rw [this] at hir
      have hmem : r ∈ s.disk := List.getElem?_mem hir
      rw [hinvalid r hmem] at hc
      exact absurd hc (by simp)

theorem write_all_version (ps : List (List Nat)) :
    ∀ s : mb_state, (write_all s ps).version = s.version + ps.length := by
  induction ps with
  | nil => intro s; simp [write_all]
  | cons q rest ih =>
    intro s
    show (write_all (write_metablock s q) rest).version = _
    rw [ih, write_metablock_version]
    push_cast [List.length_cons]
    ring

theorem write_all_inv (ps : List (List Nat)) :
    ∀ (s : mb_state) (p : List Nat),
      mb_inv s p → mb_inv (write_all s ps) (ps.getLastD p) := by
  induction ps with
  | nil => intro s p h; exact h
  | cons q rest ih =>
    intro s p h
    rw [List.getLastD_cons]
    exact ih (write_metablock s q) q (write_preserves_inv s p q h)

theorem recover_of_inv (s : mb_state) (p : List Nat) (h : mb_inv s p) :
    recover s.disk = some (s.version, p) := by
  obtain ⟨hn, hh, hprev, huniq⟩ := h
  apply scan_finds_max s.version p s.disk (prev_slot s) none hprev
  · intro i r h1 h2
    exact (huniq i r h1 h2).1
  · intro i r hlt h1 h2
    rcases lt_or_eq_of_le (huniq i r h1 h2).1 with hlt2 | heq
    · exact hlt2
    · exact absurd ((huniq i r h1 h2).2 heq) (by omega)
  · exact Or.inl rfl

/-- C1: a metablock record is valid iff its stored CRC field equals the
CRC recomputed over the record, and for every sequence of
`write_metablock` calls with payloads `P1 .. Pk` (k ≥ 1, starting from a
ring that holds no valid record), recovery selects among valid records
the unique one with the largest written version — the last payload — as
the current metablock. -/
theorem metablock_validity_and_monotonic_recovery :
    (∀ r : crc_metablock_t, r.check_crc = true ↔ r._crc = r.crc) ∧
    ∀ (s : mb_state) (ps : List (List Nat)),
      (∀ r ∈ s.disk, r.check_crc = false) →
      s.head < s.disk.length →
      ps ≠ [] →
      recover (write_all s ps).disk =
        some (s.version + ps.length, ps.getLastD []) ∧
      (∀ (i j : Nat) (r r' : crc_metablock_t),
        (write_all s ps).disk[i]? = some r →
        (write_all s ps).disk[j]? = some r' →
        r.check_crc = true → r'.check_crc = true →
        r.version = s.version + ps.length →
        r'.version = s.version + ps.length → i = j) := by
  constructor
  · intro r
    simp [crc_metablock_t.check_crc]
  · intro s ps hinvalid hh hne
    obtain ⟨q, rest, rfl⟩ := List.exists_cons_of_ne_nil hne
    have hn : 0 < s.disk.length := by omega
    have h1 : mb_inv (write_metablock s q) q :=
      write_establishes_inv s q hn hh hinvalid
    have h2 : mb_inv (write_all (write_metablock s q) rest) (rest.getLastD q) :=
      write_all_inv rest _ q h1
    have hver : (write_all (write_metablock s q) rest).version =
        s.version + (((q :: rest).length : Nat) : Int) := by
      rw [write_all_version, write_metablock_version]
      push_cast [List.length_cons]
      ring
    constructor
    · show recover (write_all (write_metablock s q) rest).disk =
        some (s.version + (((q :: rest).length : Nat) : Int), (q :: rest).getLastD [])
      rw [recover_of_inv _ _ h2, List.getLastD_cons, hver]
    · intro i j r r' hi hj hc hc' hv hv'
      obtain ⟨_, _, _, huniq⟩ := h2
      have hpi := (huniq i r hi hc).2 (by rw [hver]; exact hv)
      have hpj := (huniq j r' hj hc').2 (by rw [hver]; exact hv')
      exact hpi.trans hpj.symm

/-- Witness for C1 at a concrete ring of three initially invalid slots and
two writes: recovery returns version 2 with the second payload. -/
theorem metablock_recovery_witness :
    (∀ r ∈ ([⟨1, 0, []⟩, ⟨1, 0, []⟩, ⟨1, 0, []⟩] : List crc_metablock_t),
      r.check_crc = false) ∧
    (0 < 3) ∧ (([[0], [5]] : List (List Nat)) ≠ []) ∧
    recover (write_all ⟨[⟨1, 0, []⟩, ⟨1, 0, []⟩, ⟨1, 0, []⟩], 0, 0⟩
        [[0], [5]]).disk =
      some ((0 : Int) + ((([[0], [5]] : List (List Nat)).length : Nat) : Int),
        ([[0], [5]] : List (List Nat)).getLastD []) :=
  ⟨by decide, by decide, by decide,
    (metablock_validity_and_monotonic_recovery.2 _ _
      (by decide) (by decide) (by decide)).1⟩

/-- C3 (amended): the `version` field of the on-disk metablock record is a
4-byte (32-bit) little-endian signed counter — the source declares it
`int`, not a 64-bit type — and it is monotonically increasing: each
`write_metablock` increases it by exactly one. -/
theorem version_field_width_and_monotone :
    version_field_width = 4 ∧
    ∀ (s : mb_state) (p : List Nat),
      (write_metablock s p).version = s.version + 1 ∧
      s.version < (write_metablock s p).version := by
  refine ⟨rfl, fun s p => ⟨rfl, ?_⟩⟩
  rw [write_metablock_version]
  omega

/-! Section 4: the head cursor `head_t` and the ring geometry. -/

/-- Embedded from metablock_manager.hpp line 16: number of metablock
extents, hard coded. -/
def MB_NEXTENTS : Nat := 2

/-- Embedded from metablock_manager.hpp line 17: every
`MB_EXTENT_SEPERATION`-th extent of the file belongs to the metablock
ring (the source spells the constant `MB_EXTENT_SEPERATION`). -/
def MB_EXTENT_SEPERATION : Nat := 4

/-- Embedded from `head_t` (metablock_manager.hpp lines 58-83): the slot
cursor `mb_slot`, the extent index `extent`, and the `wraparound` flag.
The saved `push`/`pop` snapshot and the `extent_size` member are not
needed for the properties proved here. -/
structure head_t where
  mb_slot : Nat
  extent : Nat
  wraparound : Bool
deriving Repr, DecidableEq

/-- Modelled from the spec (§4.1): the write/read offset of the head,
`static_header_size + (extent * MB_EXTENT_SEPARATION) * extent_size +
slot * sizeof(CRCMetablock)`.  The body of `head_t::offset` lives in the
missing metablock_manager.tcc. -/
def head_t.offset (static_header_size extent_size sizeof_crc_metablock : Nat)
    (h : head_t) : Nat :=
  static_header_size + (h.extent * MB_EXTENT_SEPERATION) * extent_size +
    h.mb_slot * sizeof_crc_metablock

/-- Modelled from the spec (§4.1): advancing the head — `extent++` when
`slot` reaches `slots_per_extent`, `extent` wraps modulo `MB_NEXTENTS`,
and the wraparound flag becomes true when the cursor first passes slot 0
of extent 0 after the last slot.  The body of `head_t::operator++` lives
in the missing metablock_manager.tcc. -/
def head_t.inc (slots_per_extent : Nat) (h : head_t) : head_t :=
  if h.mb_slot + 1 = slots_per_extent then
    { mb_slot := 0,
      extent := (h.extent + 1) % MB_NEXTENTS,
      wraparound := h.wraparound || decide ((h.extent + 1) % MB_NEXTENTS = 0) }
  else
    { h with mb_slot := h.mb_slot + 1 }

/-- Initial cursor position used by `start`: slot 0 of extent 0, no
wraparound. -/
def head_t.init : head_t := ⟨0, 0, false⟩

theorem mod_two_add_one (q : Nat) : (q % 2 + 1) % 2 = (q + 1) % 2 := by omega

theorem wrap_roll_iff (spe q i : Nat) (hspe : 0 < spe)
    (hi1 : i + 1 = (q + 1) * spe) (hle_i : q * spe ≤ i) :
    2 * spe ≤ i ∨ (q % 2 + 1) % 2 = 0 ↔ 2 * spe ≤ i + 1 := by
  constructor
  · rintro (h | h)
    · omega
    · have hq : 1 ≤ q := by omega
      have h2 : 2 * spe ≤ (q + 1) * spe := Nat.mul_le_mul_right spe (by omega)
      omega
  · intro h
    rcases Nat.eq_zero_or_pos q with hq | hq
    · exfalso
      subst hq
      rw [show (0 + 1) * spe = spe by ring] at hi1
      omega
    · by_cases h2 : q % 2 = 1
      · right
        omega
      · left
        have h3 : 2 ≤ q := by omega
        have h4 : 2 * spe ≤ q * spe := Nat.mul_le_mul_right spe h3
        omega

theorem head_iterate (spe : Nat) (hspe : 0 < spe) :
    ∀ i : Nat, (head_t.inc spe)^[i] head_t.init =
      ⟨i % spe, (i / spe) % MB_NEXTENTS, decide (MB_NEXTENTS * spe ≤ i)⟩ := by
  intro i
  induction i with
  | zero =>
    show head_t.init = _
    have h0 : decide (MB_NEXTENTS * spe ≤ 0) = false := by
      simp only [decide_eq_false_iff_not, MB_NEXTENTS]
      omega
    rw [h0]
    unfold head_t.init
    simp
  | succ i ih =>
    rw [Function.iterate_succ_apply', ih]
    have hd : i / spe * spe + i % spe = i := by
      rw [mul_comm]
      exact Nat.div_add_mod i spe
    have hm : i % spe < spe := Nat.mod_lt _ hspe
    unfold head_t.inc
    by_cases hroll : i % spe + 1 = spe
    · rw [if_pos hroll]
      have hi1 : i + 1 = (i / spe + 1) * spe := by
        rw [Nat.add_mul, one_mul]
        omega
      have hmod : (i + 1) % spe = 0 := by
        rw [hi1, Nat.mul_mod_left]
      have hdiv : (i + 1) / spe = i / spe + 1 := by
        rw [hi1, Nat.mul_div_cancel _ hspe]
      simp only [head_t.mk.injEq, MB_NEXTENTS]
      refine ⟨hmod.symm, ?_, ?_⟩
      · rw [hdiv]
        generalize i / spe = u
        omega
      · rw [← Bool.decide_or, decide_eq_decide]
        exact wrap_roll_iff spe (i / spe) i hspe hi1 (by omega)
    · rw [if_neg hroll]
      have hlt : i % spe + 1 < spe := by omega
      have hi1 : i + 1 = i / spe * spe + (i % spe + 1) := by omega
      have hmod : (i + 1) % spe = i % spe + 1 := by
        rw [hi1, Nat.mul_add_mod', Nat.mod_eq_of_lt hlt]
      have hdiv : (i + 1) / spe = i / spe := by
        rw [hi1, mul_comm, Nat.mul_add_div hspe, Nat.div_eq_of_lt hlt]
        omega
      have hne2 : i + 1 ≠ 2 * spe := by
        intro he
        have h0 : (i + 1) % spe = 0 := by
          rw [he]
          exact Nat.mul_mod_left 2 spe
        omega
      simp only [head_t.mk.injEq, MB_NEXTENTS]
      refine ⟨hmod.symm, by rw [hdiv], ?_⟩
      rw [decide_eq_decide]
      omega

/-- C6: starting at slot 0 of extent 0, after `i` head advances the cursor
sits at slot `i % slots_per_extent` of extent
`(i / slots_per_extent) % MB_NEXTENTS` (extent increments when the slot
reaches `slots_per_extent` and wraps modulo `MB_NEXTENTS = 2`), the
wraparound flag is set exactly once the cursor has passed slot 0 of
extent 0 after the last slot (`i ≥ MB_NEXTENTS * slots_per_extent`), and
the write/read offset is `static_header_size +
(extent * MB_EXTENT_SEPARATION) * extent_size +
slot * sizeof(CRCMetablock)` with `MB_EXTENT_SEPARATION = 4`. -/
theorem head_cursor_geometry (spe : Nat) (hspe : 0 < spe)
    (i static_header_size extent_size sizeof_crc_metablock : Nat) :
    ((head_t.inc spe)^[i] head_t.init).mb_slot = i % spe ∧
    ((head_t.inc spe)^[i] head_t.init).extent = (i / spe) % MB_NEXTENTS ∧
    ((head_t.inc spe)^[i] head_t.init).wraparound =
      decide (MB_NEXTENTS * spe ≤ i) ∧
    ((head_t.inc spe)^[i] head_t.init).offset
        static_header_size extent_size sizeof_crc_metablock =
      static_header_size +
        ((i / spe) % MB_NEXTENTS * MB_EXTENT_SEPERATION) * extent_size +
        (i % spe) * sizeof_crc_metablock := by
  rw [head_iterate spe hspe i]
  exact ⟨rfl, rfl, rfl, rfl⟩

/-- Witness for C6 with `slots_per_extent = 3` at `i = 13`: the cursor is
at slot 1 of extent 0 with wraparound set, and the offset formula gives
`10 + 0 * 20 + 1 * 7 = 17`. -/
theorem head_cursor_geometry_witness :
    (0 < 3) ∧
    ((head_t.inc 3)^[13] head_t.init).mb_slot = 13 % 3 ∧
    ((head_t.inc 3)^[13] head_t.init).extent = (13 / 3) % MB_NEXTENTS ∧
    ((head_t.inc 3)^[13] head_t.init).wraparound =
      decide (MB_NEXTENTS * 3 ≤ 13) ∧
    ((head_t.inc 3)^[13] head_t.init).offset 10 20 7 =
      10 + ((13 / 3) % MB_NEXTENTS * MB_EXTENT_SEPERATION) * 20 + (13 % 3) * 7 :=
  ⟨by decide, head_cursor_geometry 3 (by decide) 13 10 20 7⟩

/-! Section 5: the thread pool runtime (arch/runtime/thread_pool.cc). -/

/-- Embedded from `linux_thread_t` (thread_pool.cc lines 414-480): the
per-worker state that the pool-level operations touch — the external
inbox of its message hub (message ids in arrival order), the worker's
`do_shutdown` flag, and the count of writes to its shutdown-notify
eventfd. -/
structure linux_thread_t where
  queue : List Nat
  do_shutdown : Bool
  shutdown_notify_writes : Nat
deriving Repr, DecidableEq

/-- Embedded from `linux_thread_pool_t` (thread_pool.cc): the fields its
methods read and write — the interrupt message pointer (`none` = NULL),
the `threads` table (index = thread id; the utility thread is the last
entry), the generic blocker pool pointer, the pool's `do_shutdown` flag,
the shutdown condition variable (modelled as a count of
`pthread_cond_signal` calls) and `n_threads`. -/
structure linux_thread_pool_t where
  interrupt_message : Option Nat
  threads : List linux_thread_t
  generic_blocker_pool : Option Nat
  do_shutdown : Bool
  shutdown_cond_signals : Nat
  n_threads : Nat
deriving Repr, DecidableEq

/-- Embedded from the constructor `linux_thread_pool_t::linux_thread_pool_t`
(thread_pool.cc line 28): `n_threads = worker_threads + 1` — one extra
utility thread is created. -/
def pool_n_threads (worker_threads : Nat) : Nat := worker_threads + 1

/-- Embedded from `run_thread_pool` (thread_pool.cc line 166): the single
`thread_barrier_t` is constructed with arity `n_threads + 1` (all worker
threads plus the main thread). -/
def barrier_arity (worker_threads : Nat) : Nat :=
  pool_n_threads worker_threads + 1

/-- Embedded from the use of `message_hub.insert_external_message` in the
signal handlers: append one message to a thread's external inbox. -/
def insert_external_message (m : Nat) (t : linux_thread_t) : linux_thread_t :=
  { t with queue := t.queue ++ [m] }

/-- Embedded from `linux_thread_pool_t::set_interrupt_message`
(thread_pool.cc lines 43-53): under the interrupt-message spinlock,
exchange the stored interrupt message for `m`, returning the old one. -/
def set_interrupt_message (s : linux_thread_pool_t) (m : Option Nat) :
    Option Nat × linux_thread_pool_t :=
  (s.interrupt_message, { s with interrupt_message := m })

/-- Embedded from `linux_thread_pool_t::interrupt_handler`
(thread_pool.cc lines 355-372), the handler installed for `SIGINT` and
`SIGTERM`: atomically swap the interrupt message out (to NULL) and, only
when one was present, post it to the utility worker
`threads[n_threads - 1]`. -/
def interrupt_handler (s : linux_thread_pool_t) : linux_thread_pool_t :=
  let o := (set_interrupt_message s none).1
  let s' := (set_interrupt_message s none).2
  match o with
  | none => s'
  | some m =>
      { s' with threads :=
          s'.threads.modify (insert_external_message m) (s'.n_threads - 1) }

/-- Embedded from `linux_thread_pool_t::shutdown_thread_pool`
(thread_pool.cc lines 386-402): under the shutdown mutex, set
`do_shutdown = true` and signal the shutdown condition variable;
nothing else is touched. -/
def shutdown_thread_pool (s : linux_thread_pool_t) : linux_thread_pool_t :=
  { s with do_shutdown := true,
           shutdown_cond_signals := s.shutdown_cond_signals + 1 }

theorem interrupt_handler_of_none (s : linux_thread_pool_t)
    (h : s.interrupt_message = none) : interrupt_handler s = s := by
  obtain ⟨im, th, bp, ds, sc, nt⟩ := s
  have h2 : im = none := h
  subst h2
  rfl

theorem interrupt_handler_of_some (s : linux_thread_pool_t) (m : Nat)
    (h : s.interrupt_message = some m) :
    interrupt_handler s =
      { s with interrupt_message := none,
               threads := s.threads.modify (insert_external_message m)
                 (s.n_threads - 1) } := by
  unfold interrupt_handler set_interrupt_message
  rw [h]

/-- C4: delivering `SIGINT`/`SIGTERM` `N ≥ 1` times while a stored
interrupt message `m` is in flight enqueues `m` exactly once, onto the
utility worker `threads[n_threads - 1]`: after `N` handler runs the
interrupt pointer is NULL, the utility worker's inbox has gained exactly
one copy of `m` at its tail, and every other thread is untouched. -/
theorem interrupt_no_double_delivery (s : linux_thread_pool_t)
    (m : Nat) (t : linux_thread_t) (N : Nat)
    (hN : 1 ≤ N) (hmsg : s.interrupt_message = some m)
    (ht : s.threads[s.n_threads - 1]? = some t) :
    (interrupt_handler^[N] s).interrupt_message = none ∧
    (interrupt_handler^[N] s).threads[s.n_threads - 1]? =
      some { t with queue := t.queue ++ [m] } ∧
    ∀ i : Nat, i ≠ s.n_threads - 1 →
      (interrupt_handler^[N] s).threads[i]? = s.threads[i]? := by
  have hone : interrupt_handler^[N] s = interrupt_handler s := by
    obtain ⟨k, rfl⟩ : ∃ k, N = k + 1 := ⟨N - 1, by omega⟩
    clear hN
    induction k with
    | zero => rfl
    | succ k ih =>
      rw [Function.iterate_succ_apply', ih, interrupt_handler_of_none]
      rw [interrupt_handler_of_some s m hmsg]
  rw [hone, interrupt_handler_of_some s m hmsg]
  refine ⟨rfl, ?_, ?_⟩
  · show (s.threads.modify (insert_external_message m) (s.n_threads - 1))[s.n_threads - 1]? = _
    rw [List.getElem?_modify]
    rw [ht]
    simp [insert_external_message]
  · intro i hi
    show (s.threads.modify (insert_external_message m) (s.n_threads - 1))[i]? = _
    rw [List.getElem?_modify]
    cases h : s.threads[i]? with
    | none => rfl
    | some t' =>
      have hne : ¬ (s.n_threads - 1 = i) := fun he => hi he.symm
      simp [hne]

/-- C10: `shutdown_thread_pool()` only sets the pool's `do_shutdown` flag
and signals the shutdown condition variable; it leaves the
interrupt-message pointer, the threads table (hence every worker's
state), the blocker pool and `n_threads` unchanged — workers are stopped
later by the main thread via `initiate_shut_down`, not by this call. -/
theorem shutdown_thread_pool_frame (s : linux_thread_pool_t) :
    (shutdown_thread_pool s).do_shutdown = true ∧
    (shutdown_thread_pool s).shutdown_cond_signals = s.shutdown_cond_signals + 1 ∧
    (shutdown_thread_pool s).interrupt_message = s.interrupt_message ∧
    (shutdown_thread_pool s).threads = s.threads ∧
    (shutdown_thread_pool s).generic_blocker_pool = s.generic_blocker_pool ∧
    (shutdown_thread_pool s).n_threads = s.n_threads :=
  ⟨rfl, rfl, rfl, rfl, rfl, rfl⟩

/-- Witness for C4: a pool of two threads with interrupt message 7 stored;
three signal deliveries enqueue message 7 exactly once onto thread 1
(the utility worker) and leave thread 0's inbox untouched. -/
theorem interrupt_no_double_delivery_witness :
    (1 ≤ 3) ∧
    ((⟨some 7, [⟨[], false, 0⟩, ⟨[], false, 0⟩], none, false, 0, 2⟩ :
        linux_thread_pool_t).interrupt_message = some 7) ∧
    ((⟨some 7, [⟨[], false, 0⟩, ⟨[], false, 0⟩], none, false, 0, 2⟩ :
        linux_thread_pool_t).threads[
      (⟨some 7, [⟨[], false, 0⟩, ⟨[], false, 0⟩], none, false, 0, 2⟩ :
        linux_thread_pool_t).n_threads - 1]? =
      some (⟨[], false, 0⟩ : linux_thread_t)) ∧
    ((interrupt_handler^[3]
        ⟨some 7, [⟨[], false, 0⟩, ⟨[], false, 0⟩], none, false, 0, 2⟩).interrupt_message
        = none ∧
      (interrupt_handler^[3]
        ⟨some 7, [⟨[], false, 0⟩, ⟨[], false, 0⟩], none, false, 0, 2⟩).threads[
          (⟨some 7, [⟨[], false, 0⟩, ⟨[], false, 0⟩], none, false, 0, 2⟩ :
            linux_thread_pool_t).n_threads - 1]? =
        some { (⟨[], false, 0⟩ : linux_thread_t) with
          queue := (⟨[], false, 0⟩ : linux_thread_t).queue ++ [7] } ∧
      ∀ i : Nat, i ≠ (⟨some 7, [⟨[], false, 0⟩, ⟨[], false, 0⟩], none, false,
          0, 2⟩ : linux_thread_pool_t).n_threads - 1 →
        (interrupt_handler^[3]
          ⟨some 7, [⟨[], false, 0⟩, ⟨[], false, 0⟩], none, false, 0, 2⟩).threads[i]? =
        (⟨some 7, [⟨[], false, 0⟩, ⟨[], false, 0⟩], none, false, 0, 2⟩ :
          linux_thread_pool_t).threads[i]?) :=
  ⟨by decide, rfl, by decide,
    interrupt_no_double_delivery _ 7 _ 3 (by decide) rfl (by decide)⟩

/-! Section 6: the SIGSEGV handler. -/

/-- Signal number of SIGSEGV on Linux. -/
def SIGSEGV : Nat := 11

/-- Flag `SA_SIGINFO` of `sigaction` on Linux x86. -/
def SA_SIGINFO : Nat := 0x00000004

/-- Flag `SA_ONSTACK` of `sigaction` on Linux x86: deliver the signal on
the alternate signal stack installed with `sigaltstack`. -/
def SA_ONSTACK : Nat := 0x08000000

/-- The three fatal outcomes of `sigsegv_handler`: every branch of the
source calls `crash(...)`, which aborts the process. -/
inductive crash_reason
  | coroutine_stack_overflow
  | segfault_at_address (addr : Nat)
  | unexpected_signal (signum : Nat)
deriving Repr, DecidableEq

/-- Embedded from `linux_thread_pool_t::sigsegv_handler` (thread_pool.cc
lines 374-384): classify the faulting address and crash.  The result is
`some reason` when the handler aborts with that diagnosis; `none` would
mean the handler returned and let the process continue, which no branch
of the source does.  `is_coroutine_stack_overflow` is declared outside
these sources, so it is a parameter of the model. -/
def sigsegv_handler (is_coroutine_stack_overflow : Nat → Bool)
    (signum si_addr : Nat) : Option crash_reason :=
  if signum = SIGSEGV then
    if is_coroutine_stack_overflow si_addr then
      some crash_reason.coroutine_stack_overflow
    else
      some (crash_reason.segfault_at_address si_addr)
  else
    some (crash_reason.unexpected_signal signum)

/-! Section 7: lifecycle events of `run_thread_pool` and `start_thread`. -/

/-- Events of the main thread's `run_thread_pool` and of a worker's
`start_thread`, in program order (Linux build: the `__MACH__`-only and
debug-only blocks are compiled out). -/
inductive pool_event
  | create_thread (i : Nat)
  | barrier_wait
  | install_interrupt_handlers
  | wait_for_shutdown_cond
  | remove_interrupt_handlers
  | initiate_shut_down (i : Nat)
  | join_thread (i : Nat)
  | block_signals_except_sigsegv
  | construct_worker (i : Nat)
  | install_sigaltstack
  | install_sigsegv_action (sa_flags : Nat)
  | construct_generic_blocker_pool
  | store_initial_message
  | run_queue
  | destroy_worker (i : Nat)
deriving Repr, DecidableEq

/-- Embedded from `linux_thread_pool_t::run_thread_pool` (thread_pool.cc
lines 162-328), in program order: create all `n_threads` workers, wait on
the barrier, install the interrupt handlers, wait for the shutdown
condition, remove the handlers, call `initiate_shut_down` on every
worker, wait on the barrier again, join every worker. -/
def run_thread_pool_events (worker_threads : Nat) : List pool_event :=
  (List.range (pool_n_threads worker_threads)).map pool_event.create_thread ++
  [pool_event.barrier_wait, pool_event.install_interrupt_handlers,
   pool_event.wait_for_shutdown_cond, pool_event.remove_interrupt_handlers] ++
  (List.range (pool_n_threads worker_threads)).map pool_event.initiate_shut_down ++
  [pool_event.barrier_wait] ++
  (List.range (pool_n_threads worker_threads)).map pool_event.join_thread

/-- Embedded from `linux_thread_pool_t::start_thread` (thread_pool.cc
lines 62-154) for thread `i`, in program order.  Thread 0 is the one
handed the initial message (`run_thread_pool` line 174), and only the
thread with an initial message constructs the generic blocker pool
before the first barrier wait and stores the initial message after it
(lines 111-129). -/
def start_thread_events (i : Nat) : List pool_event :=
  [pool_event.block_signals_except_sigsegv, pool_event.construct_worker i,
   pool_event.install_sigaltstack,
   pool_event.install_sigsegv_action (SA_SIGINFO ||| SA_ONSTACK)] ++
  (if i = 0 then [pool_event.construct_generic_blocker_pool] else []) ++
  [pool_event.barrier_wait] ++
  (if i = 0 then [pool_event.store_initial_message] else []) ++
  [pool_event.run_queue, pool_event.barrier_wait, pool_event.destroy_worker i]

/-- Recognizer for barrier waits. -/
def is_barrier : pool_event → Bool
  | pool_event.barrier_wait => true
  | _ => false

/-- Recognizer for thread creations. -/
def is_create_thread : pool_event → Bool
  | pool_event.create_thread _ => true
  | _ => false

theorem countP_map_create (n : Nat) :
    ((List.range n).map pool_event.create_thread).countP is_create_thread = n := by
  have h : ((List.range n).map pool_event.create_thread).length = n := by simp
  conv_rhs => rw [← h]
  rw [List.countP_eq_length]
  intro a ha
  obtain ⟨i, _, rfl⟩ := List.mem_map.mp ha
  rfl

theorem countP_barrier_map_create (n : Nat) :
    ((List.range n).map pool_event.create_thread).countP is_barrier = 0 := by
  rw [List.countP_eq_zero]
  intro a ha
  obtain ⟨i, _, rfl⟩ := List.mem_map.mp ha
  simp [is_barrier]

theorem countP_barrier_map_initiate (n : Nat) :
    ((List.range n).map pool_event.initiate_shut_down).countP is_barrier = 0 := by
  rw [List.countP_eq_zero]
  intro a ha
  obtain ⟨i, _, rfl⟩ := List.mem_map.mp ha
  simp [is_barrier]

theorem countP_barrier_map_join (n : Nat) :
    ((List.range n).map pool_event.join_thread).countP is_barrier = 0 := by
  rw [List.countP_eq_zero]
  intro a ha
  obtain ⟨i, _, rfl⟩ := List.mem_map.mp ha
  simp [is_barrier]

theorem countP_create_map_initiate (n : Nat) :
    ((List.range n).map pool_event.initiate_shut_down).countP is_create_thread = 0 := by
  rw [List.countP_eq_zero]
  intro a ha
  obtain ⟨i, _, rfl⟩ := List.mem_map.mp ha
  simp [is_create_thread]

theorem countP_create_map_join (n : Nat) :
    ((List.range n).map pool_event.join_thread).countP is_create_thread = 0 := by
  rw [List.countP_eq_zero]
  intro a ha
  obtain ⟨i, _, rfl⟩ := List.mem_map.mp ha
  simp [is_create_thread]

/-- C7: constructing the pool with `N_workers ≥ 1` allocates
`N_workers + 1` OS threads (one `create_thread` per worker in
`run_thread_pool`), and startup/shutdown use one barrier of arity
`N_workers + 1 + 1`, on which the main thread waits exactly twice — once
after all creations to release the workers, once at shutdown — and each
worker waits exactly twice, its Worker construction preceding its first
wait. -/
theorem thread_pool_barrier_lifecycle (w : Nat) (hw : 1 ≤ w) :
    pool_n_threads w = w + 1 ∧
    barrier_arity w = w + 1 + 1 ∧
    (run_thread_pool_events w).countP is_create_thread = w + 1 ∧
    (run_thread_pool_events w).countP is_barrier = 2 ∧
    (∀ i : Nat, (start_thread_events i).countP is_barrier = 2) ∧
    (∀ i : Nat, ∃ pre post,
      start_thread_events i = pre ++ pool_event.barrier_wait :: post ∧
      pool_event.construct_worker i ∈ pre ∧
      pre.countP is_barrier = 0 ∧
      post.countP is_barrier = 1) := by
  refine ⟨rfl, rfl, ?_, ?_, ?_, ?_⟩
  · unfold run_thread_pool_events
    simp only [List.countP_append, countP_map_create, countP_create_map_initiate,
      countP_create_map_join]
    simp [List.countP_cons, is_create_thread, pool_n_threads]
  · unfold run_thread_pool_events
    simp only [List.countP_append, countP_barrier_map_create,
      countP_barrier_map_initiate, countP_barrier_map_join]
    simp [List.countP_cons, is_barrier]
  · intro i
    by_cases h0 : i = 0
    · subst h0
      decide
    · simp only [start_thread_events, if_neg h0]
      simp [List.countP_cons, is_barrier]
  · intro i
    by_cases h0 : i = 0
    · subst h0
      refine ⟨[pool_event.block_signals_except_sigsegv, pool_event.construct_worker 0,
        pool_event.install_sigaltstack,
        pool_event.install_sigsegv_action (SA_SIGINFO ||| SA_ONSTACK),
        pool_event.construct_generic_blocker_pool],
        [pool_event.store_initial_message, pool_event.run_queue,
         pool_event.barrier_wait, pool_event.destroy_worker 0], ?_, ?_, ?_, ?_⟩
      · decide
      · decide
      · decide
      · decide
    · refine ⟨[pool_event.block_signals_except_sigsegv, pool_event.construct_worker i,
        pool_event.install_sigaltstack,
        pool_event.install_sigsegv_action (SA_SIGINFO ||| SA_ONSTACK)],
        [pool_event.run_queue, pool_event.barrier_wait, pool_event.destroy_worker i],
        ?_, ?_, ?_, ?_⟩
      · simp [start_thread_events, if_neg h0]
      · simp
      · simp [List.countP_cons, is_barrier]
      · simp [List.countP_cons, is_barrier]

/-- Witness for C7 at `N_workers = 2`. -/
theorem thread_pool_barrier_lifecycle_witness :
    (1 ≤ 2) ∧
    (pool_n_threads 2 = 2 + 1 ∧
     barrier_arity 2 = 2 + 1 + 1 ∧
     (run_thread_pool_events 2).countP is_create_thread = 2 + 1 ∧
     (run_thread_pool_events 2).countP is_barrier = 2 ∧
     (∀ i : Nat, (start_thread_events i).countP is_barrier = 2) ∧
     (∀ i : Nat, ∃ pre post,
       start_thread_events i = pre ++ pool_event.barrier_wait :: post ∧
       pool_event.construct_worker i ∈ pre ∧
       pre.countP is_barrier = 0 ∧
       post.countP is_barrier = 1)) :=
  ⟨by decide, thread_pool_barrier_lifecycle 2 (by decide)⟩

/-- C8: for every delivered SIGSEGV the handler classifies the faulting
address — a coroutine-guard-page hit is reported as a coroutine stack
overflow, any other address is reported as a plain segmentation fault at
that address — and on every input (any signal number, any address) the
handler ends in a crash, never returning to let the process continue;
moreover every worker installs the handler with `SA_ONSTACK` set, after
installing an alternate stack, so it runs on the alternate signal
stack. -/
theorem sigsegv_handler_classifies_and_aborts :
    (∀ (ov : Nat → Bool) (addr : Nat),
      sigsegv_handler ov SIGSEGV addr =
        if ov addr then some crash_reason.coroutine_stack_overflow
        else some (crash_reason.segfault_at_address addr)) ∧
    (∀ (ov : Nat → Bool) (signum addr : Nat),
      (sigsegv_handler ov signum addr).isSome = true) ∧
    (∀ i : Nat, ∃ pre mid post : List pool_event,
      start_thread_events i =
        pre ++ pool_event.install_sigaltstack ::
          (mid ++ pool_event.install_sigsegv_action (SA_SIGINFO ||| SA_ONSTACK) ::
            post)) ∧
    (SA_SIGINFO ||| SA_ONSTACK) &&& SA_ONSTACK ≠ 0 := by
  refine ⟨?_, ?_, ?_, by decide⟩
  · intro ov addr
    simp [sigsegv_handler, SIGSEGV]
  · intro ov signum addr
    unfold sigsegv_handler
    split
    · split <;> rfl
    · rfl
  · intro i
    by_cases h0 : i = 0
    · subst h0
      exact ⟨[pool_event.block_signals_except_sigsegv, pool_event.construct_worker 0],
        [], [pool_event.construct_generic_blocker_pool, pool_event.barrier_wait,
          pool_event.store_initial_message, pool_event.run_queue,
          pool_event.barrier_wait, pool_event.destroy_worker 0], by decide⟩
    · exact ⟨[pool_event.block_signals_except_sigsegv, pool_event.construct_worker i],
        [], [pool_event.barrier_wait, pool_event.run_queue,
          pool_event.barrier_wait, pool_event.destroy_worker i],
        by simp [start_thread_events, h0]⟩

/-! Section 8: the startup barrier and the generic blocker pool (C5). -/

/-- Embedded from `run_thread_pool` line 174 (the initial message goes to
thread 0) together with `start_thread` lines 111-117 (exactly the thread
handed the initial message constructs the generic blocker pool): the
index of the constructing thread. -/
def blocker_pool_constructor : Nat := 0

/-- Embedded from `interrupt_handler` line 370, which posts the interrupt
message to `threads[n_threads - 1]`: the utility worker is the
highest-index thread. -/
def utility_thread_id (n_threads : Nat) : Nat := n_threads - 1

/-- C5 counterexample: already for the smallest pool (`N_workers = 1`,
so `n_threads = 2`) the generic blocker pool is constructed by thread 0,
which is not the utility worker (thread 1). -/
theorem blocker_pool_constructor_not_utility :
    blocker_pool_constructor ≠ utility_thread_id (pool_n_threads 1) := by decide

/-- State of the startup-barrier protocol: `wpc i` is worker `i`'s program
counter — 0 = running the pre-barrier body of `start_thread` (for thread
0 this body constructs the generic blocker pool), 1 = body done, 2 =
arrived at the barrier, 3 = past the barrier; `mpc` is the main thread's
counter (0 = creating threads, 2 = arrived, 3 = past); `pool` says
whether `generic_blocker_pool` is non-null. -/
structure startup_state where
  wpc : Nat → Nat
  mpc : Nat
  pool : Bool

/-- Modelled from `start_thread` (lines 62-131) and `run_thread_pool`
(lines 162-200): one interleaving step of the `n` workers and the main
thread, up to and across the first barrier wait.  The barrier
(`thread_barrier_t` of arity `n + 1`) lets a participant pass only once all
`n` workers and the main thread have arrived.  Worker 0's pre-barrier
body sets the pool. -/
inductive startup_step (n : Nat) : startup_state → startup_state → Prop
  | body (i : Nat) (s : startup_state) (hi : i < n) (hpc : s.wpc i = 0) :
      startup_step n s
        { s with wpc := Function.update s.wpc i 1,
                 pool := if i = 0 then true else s.pool }
  | arrive (i : Nat) (s : startup_state) (hi : i < n) (hpc : s.wpc i = 1) :
      startup_step n s { s with wpc := Function.update s.wpc i 2 }
  | main_arrive (s : startup_state) (hpc : s.mpc = 0) :
      startup_step n s { s with mpc := 2 }
  | release (i : Nat) (s : startup_state) (hi : i < n) (hpc : s.wpc i = 2)
      (hall : ∀ j, j < n → 2 ≤ s.wpc j) (hmain : 2 ≤ s.mpc) :
      startup_step n s { s with wpc := Function.update s.wpc i 3 }
  | main_release (s : startup_state) (hpc : s.mpc = 2)
      (hall : ∀ j, j < n → 2 ≤ s.wpc j) :
      startup_step n s { s with mpc := 3 }

/-- Every thread is at the start of its pre-barrier body; no pool yet. -/
def startup_init : startup_state := ⟨fun _ => 0, 0, false⟩

/-- States reachable by some interleaving of the startup protocol. -/
def startup_reachable (n : Nat) (s : startup_state) : Prop :=
  Relation.ReflTransGen (startup_step n) startup_init s

/-- Protocol invariant: once worker 0 has finished its pre-barrier body
the pool is non-null, and a worker past the barrier implies worker 0 has
at least arrived at it. -/
def startup_inv (n : Nat) (s : startup_state) : Prop :=
  (1 ≤ s.wpc 0 → s.pool = true) ∧
  (∀ i, i < n → s.wpc i = 3 → 2 ≤ s.wpc 0)

theorem startup_inv_step (n : Nat) (s s' : startup_state)
    (hinv : startup_inv n s) (hstep : startup_step n s s') :
    startup_inv n s' := by
  obtain ⟨h1, h2⟩ := hinv
  cases hstep with
  | body i s hi hpc =>
    constructor
    · intro hge
      have hge' : 1 ≤ Function.update s.wpc i 1 0 := hge
      show (if i = 0 then true else s.pool) = true
      by_cases h0 : i = 0
      · rw [if_pos h0]
      · rw [if_neg h0]
        apply h1
        rwa [Function.update_noteq (fun hc => h0 hc.symm)] at hge'
    · intro i' hi' h3
      have h3' : Function.update s.wpc i 1 i' = 3 := h3
      show 2 ≤ Function.update s.wpc i 1 0
      by_cases hii : i' = i
      · subst hii
        rw [Function.update_same] at h3'
        exact absurd h3' (by norm_num)
      · rw [Function.update_noteq hii] at h3'
        have hold := h2 i' hi' h3'
        by_cases h0 : i = 0
        · exfalso
          rw [h0] at hpc
          omega
        · rw [Function.update_noteq (fun hc => h0 hc.symm)]
          exact hold
  | arrive i s hi hpc =>
    constructor
    · intro hge
      have hge' : 1 ≤ Function.update s.wpc i 2 0 := hge
      show s.pool = true
      apply h1
      by_cases h0 : i = 0
      · rw [h0] at hpc
        omega
      · rwa [Function.update_noteq (fun hc => h0 hc.symm)] at hge'
    · intro i' hi' h3
      have h3' : Function.update s.wpc i 2 i' = 3 := h3
      show 2 ≤ Function.update s.wpc i 2 0
      by_cases hii : i' = i
      · subst hii
        rw [Function.update_same] at h3'
        exact absurd h3' (by norm_num)
      · rw [Function.update_noteq hii] at h3'
        have hold := h2 i' hi' h3'
        by_cases h0 : i = 0
        · rw [h0, Function.update_same]
        · rw [Function.update_noteq (fun hc => h0 hc.symm)]
          exact hold
  | main_arrive s hpc => exact ⟨h1, h2⟩
  | release i s hi hpc hall hmain =>
    have h0n : 0 < n := by omega
    constructor
    · intro _
      show s.pool = true
      apply h1
      have := hall 0 h0n
      omega
    · intro i' hi' h3
      show 2 ≤ Function.update s.wpc i 3 0
      by_cases h0 : i = 0
      · rw [h0, Function.update_same]
        omega
      · rw [Function.update_noteq (fun hc => h0 hc.symm)]
        exact hall 0 h0n
  | main_release s hpc hall => exact ⟨h1, h2⟩

theorem startup_inv_reachable (n : Nat) (s : startup_state)
    (h : startup_reachable n s) : startup_inv n s := by
  induction h with
  | refl =>
    constructor
    · intro hge
      exact absurd hge (by norm_num [startup_init])
    · intro i hi h3
      exact absurd h3 (by norm_num [startup_init])
  | tail hsteps hstep ih => exact startup_inv_step n _ _ ih hstep

/-- C5 (amended): the worker that constructs the blocking-operation pool
before the first barrier is thread 0 — the thread handed the initial
message — not the utility worker; and in every reachable interleaving of
the startup protocol, every worker past the first barrier observes a
non-null blocking pool. -/
theorem blocker_pool_constructed_before_barrier (n : Nat) (s : startup_state)
    (hreach : startup_reachable n s) (i : Nat) (hi : i < n)
    (hpast : s.wpc i = 3) :
    s.pool = true ∧ blocker_pool_constructor = 0 := by
  have hinv := startup_inv_reachable n s hreach
  refine ⟨?_, rfl⟩
  have h2 := hinv.2 i hi hpast
  exact hinv.1 (by omega)

/-- Witness for C5's amended theorem: an explicit interleaving with two
workers in which worker 0 is past the barrier and the pool is visible. -/
theorem blocker_pool_constructed_before_barrier_witness :
    ∃ s : startup_state, startup_reachable 2 s ∧ 0 < 2 ∧ s.wpc 0 = 3 ∧
      (s.pool = true ∧ blocker_pool_constructor = 0) := by
  have t0 : startup_reachable 2 startup_init := Relation.ReflTransGen.refl
  have t1 := Relation.ReflTransGen.tail t0
    (startup_step.body 0 startup_init (by omega) (by decide))
  have t2 := Relation.ReflTransGen.tail t1
    (startup_step.arrive 0 _ (by omega) (by decide))
  have t3 := Relation.ReflTransGen.tail t2
    (startup_step.body 1 _ (by omega) (by decide))
  have t4 := Relation.ReflTransGen.tail t3
    (startup_step.arrive 1 _ (by omega) (by decide))
  have t5 := Relation.ReflTransGen.tail t4
    (startup_step.main_arrive _ (by decide))
  have t6 := Relation.ReflTransGen.tail t5
    (startup_step.release 0 _ (by omega) (by decide) (by decide) (by decide))
  refine ⟨_, t6, by omega, by decide,
    blocker_pool_constructed_before_barrier 2 _ t6 0 (by omega) (by decide)⟩
